import Mathlib

/-!
Verification development for the TLScope discovery and presence subsystem.

The C++ sources are shallowly embedded:
* a C++ `std::string` is a byte sequence; we model it as `List Char`, one
  character per byte of the source encoding (all payloads below are ASCII
  except the two one-character markers, which we treat atomically);
* 32-bit machine words are `Nat` with explicit `% 2 ^ 32`;
* the blocking receive is an explicit `RecvOutcome` input to the per-cycle
  step function, and the process RNG is an explicit salt input;
* the cryptographic derivation called in `crypt.cpp`
  (`PKCS5_PBKDF2_HMAC<SHA256>::DeriveKey`, 10000 iterations, 32-byte key,
  uppercase hex encoding) is implemented concretely below from RFC 6234
  (SHA-256), RFC 2104 (HMAC) and RFC 2898 (PBKDF2).
-/

/-- A byte. -/
abbrev Byte := Fin 256

/-- Model of a C++ `std::string`: a list of characters, one per byte. -/
abbrev CStr := List Char

/-- Truncate a natural number to a byte. -/
def mkByte (n : Nat) : Byte := ⟨n % 256, Nat.mod_lt n (by decide)⟩

/-- Bytewise xor. -/
def xorByte (a b : Byte) : Byte := mkByte (a.val ^^^ b.val)

/-- Raw bytes of a C++ string (`data()` / `size()`); one byte per character
under the embedding convention. -/
def strBytes (s : CStr) : List Byte := s.map fun c => mkByte c.toNat

/-- `std::string::find(needle) != npos`: `needle` occurs somewhere in `hay`. -/
def strContains (hay needle : CStr) : Bool :=
  (List.range (hay.length + 1)).any fun i => needle.isPrefixOf (hay.drop i)

/-- Uppercase hexadecimal digits (CryptoPP `HexEncoder` default alphabet). -/
def hexDigit (i : Fin 16) : Char := "0123456789ABCDEF".toList.getD i.val 'X'

/-- Two-character uppercase hex form of one byte. -/
def byteHex (b : Byte) : CStr :=
  [hexDigit ⟨b.val / 16, by omega⟩, hexDigit ⟨b.val % 16, by omega⟩]

/-- CryptoPP `HexEncoder`: uppercase hex string of a byte sequence. -/
def hexEncode (bs : List Byte) : CStr := bs.flatMap byteHex

/-! SHA-256 (RFC 6234), the hash underlying the derivation in `crypt.cpp`. -/

/-- Right rotation of a 32-bit word. -/
def rotr32 (x n : Nat) : Nat := ((x >>> n) ||| (x <<< (32 - n))) % 2 ^ 32

/-- SHA-256 `Ch` function; `¬x` is complement within 32 bits. -/
def shaCh (x y z : Nat) : Nat := (x &&& y) ^^^ ((x ^^^ (2 ^ 32 - 1)) &&& z)

/-- SHA-256 `Maj` function. -/
def shaMaj (x y z : Nat) : Nat := (x &&& y) ^^^ (x &&& z) ^^^ (y &&& z)

/-- SHA-256 big sigma 0. -/
def bsig0 (x : Nat) : Nat := rotr32 x 2 ^^^ rotr32 x 13 ^^^ rotr32 x 22

/-- SHA-256 big sigma 1. -/
def bsig1 (x : Nat) : Nat := rotr32 x 6 ^^^ rotr32 x 11 ^^^ rotr32 x 25

/-- SHA-256 small sigma 0. -/
def ssig0 (x : Nat) : Nat := rotr32 x 7 ^^^ rotr32 x 18 ^^^ (x >>> 3)

/-- SHA-256 small sigma 1. -/
def ssig1 (x : Nat) : Nat := rotr32 x 17 ^^^ rotr32 x 19 ^^^ (x >>> 10)

/-- SHA-256 round constants (RFC 6234 section 5.1, written in decimal, four
per row, row-major from K0 to K63). -/
def shaK : List Nat :=
  [1116352408, 1899447441, 3049323471, 3921009573,
   961987163, 1508970993, 2453635748, 2870763221,
   3624381080, 310598401, 607225278, 1426881987,
   1925078388, 2162078206, 2614888103, 3248222580,
   3835390401, 4022224774, 264347078, 604807628,
   770255983, 1249150122, 1555081692, 1996064986,
   2554220882, 2821834349, 2952996808, 3210313671,
   3336571891, 3584528711, 113926993, 338241895,
   666307205, 773529912, 1294757372, 1396182291,
   1695183700, 1986661051, 2177026350, 2456956037,
   2730485921, 2820302411, 3259730800, 3345764771,
   3516065817, 3600352804, 4094571909, 275423344,
   430227734, 506948616, 659060556, 883997877,
   958139571, 1322822218, 1537002063, 1747873779,
   1955562222, 2024104815, 2227730452, 2361852424,
   2428436474, 2756734187, 3204031479, 3329325298]

/-- The eight 32-bit working variables of SHA-256. -/
structure H8 where
  a : Nat
  b : Nat
  c : Nat
  d : Nat
  e : Nat
  f : Nat
  g : Nat
  h : Nat

/-- SHA-256 initial hash value (RFC 6234 section 6.1, H0 to H7 in decimal). -/
def shaH0 : H8 :=
  ⟨1779033703, 3144134277, 1013904242, 2773480762,
   1359893119, 2600822924, 528734635, 1541459225⟩

/-- One SHA-256 compression round. -/
def shaRound (s : H8) (k w : Nat) : H8 :=
  let t1 := (s.h + bsig1 s.e + shaCh s.e s.f s.g + k + w) % 2 ^ 32
  let t2 := (bsig0 s.a + shaMaj s.a s.b s.c) % 2 ^ 32
  ⟨(t1 + t2) % 2 ^ 32, s.a, s.b, s.c, (s.d + t1) % 2 ^ 32, s.e, s.f, s.g⟩

/-- Message-schedule expansion of the 16 chunk words to 64 words. -/
def shaSchedule (w16 : List Nat) : List Nat :=
  (List.range 48).foldl
    (fun w _ =>
      w ++ [(ssig1 (w.getD (w.length - 2) 0) + w.getD (w.length - 7) 0 +
             ssig0 (w.getD (w.length - 15) 0) + w.getD (w.length - 16) 0) % 2 ^ 32])
    w16

/-- SHA-256 compression of one 64-word schedule into the running state. -/
def shaCompress (st : H8) (ws : List Nat) : H8 :=
  let f := (ws.zip shaK).foldl (fun s p => shaRound s p.2 p.1) st
  ⟨(st.a + f.a) % 2 ^ 32, (st.b + f.b) % 2 ^ 32, (st.c + f.c) % 2 ^ 32,
   (st.d + f.d) % 2 ^ 32, (st.e + f.e) % 2 ^ 32, (st.f + f.f) % 2 ^ 32,
   (st.g + f.g) % 2 ^ 32, (st.h + f.h) % 2 ^ 32⟩

/-- Eight-byte big-endian form of a length-in-bits counter. -/
def be64 (n : Nat) : List Byte :=
  [mkByte (n >>> 56), mkByte (n >>> 48), mkByte (n >>> 40), mkByte (n >>> 32),
   mkByte (n >>> 24), mkByte (n >>> 16), mkByte (n >>> 8), mkByte n]

/-- SHA-256 message padding: `0x80`, zeros to 56 mod 64, 64-bit bit length. -/
def shaPad (m : List Byte) : List Byte :=
  m ++ [mkByte 0x80] ++
    List.replicate ((119 - m.length % 64) % 64) (mkByte 0) ++ be64 (8 * m.length)

/-- Big-endian 32-bit words of a byte sequence. -/
def bytesToWords : List Byte → List Nat
  | b0 :: b1 :: b2 :: b3 :: rest =>
      ((b0.val <<< 24) ||| (b1.val <<< 16) ||| (b2.val <<< 8) ||| b3.val) ::
        bytesToWords rest
  | _ => []

/-- Big-endian bytes of one 32-bit word. -/
def wordBytes (w : Nat) : List Byte :=
  [mkByte (w >>> 24), mkByte (w >>> 16), mkByte (w >>> 8), mkByte w]

/-- The 64-byte chunks of a (padded) message. -/
def chunks64 (bs : List Byte) : List (List Byte) :=
  (List.range (bs.length / 64)).map fun i => (bs.drop (64 * i)).take 64

/-- SHA-256 of a byte sequence. -/
def sha256 (m : List Byte) : List Byte :=
  let st := (chunks64 (shaPad m)).foldl
    (fun s c => shaCompress s (shaSchedule (bytesToWords c))) shaH0
  wordBytes st.a ++ wordBytes st.b ++ wordBytes st.c ++ wordBytes st.d ++
    wordBytes st.e ++ wordBytes st.f ++ wordBytes st.g ++ wordBytes st.h

/-- HMAC-SHA-256 (RFC 2104), block size 64 bytes. -/
def hmac (key msg : List Byte) : List Byte :=
  let k0 := if 64 < key.length then sha256 key else key
  let kp := k0 ++ List.replicate (64 - k0.length) (mkByte 0)
  sha256 ((kp.map fun b => xorByte b (mkByte 0x5c)) ++
    sha256 ((kp.map fun b => xorByte b (mkByte 0x36)) ++ msg))

/-- One iteration of the PBKDF2 accumulator: xor in the next `U` value. -/
def pbkdf2Step (pw : List Byte) (acc : List Byte × List Byte) : List Byte × List Byte :=
  let u := hmac pw acc.2
  (List.zipWith xorByte acc.1 u, u)

/-- First (and here only) PBKDF2 block `T_1 = U_1 xor ... xor U_c` with
`U_1 = HMAC(pw, salt || INT(1))` (RFC 2898); the derived key length in
`crypt.cpp` is exactly one SHA-256 digest. -/
def pbkdf2Block (pw salt : List Byte) (c : Nat) : List Byte :=
  let u1 := hmac pw (salt ++ [mkByte 0, mkByte 0, mkByte 0, mkByte 1])
  ((List.range (c - 1)).foldl (fun a _ => pbkdf2Step pw a) (u1, u1)).1

/-- The derivation performed by `crypt.cpp`:
`PKCS5_PBKDF2_HMAC<SHA256>().DeriveKey(key, 32, 0, data, salt, 10000)`. -/
def deriveKey (data salt : List Byte) : List Byte := pbkdf2Block data salt 10000

/-- `TLSS_U::hash(data)` from `crypt.cpp`: the 32-hex-character salt produced
by `_rand::genSalt(16)` is passed explicitly (it is the value the process RNG
returned); the salt string's own bytes are the PBKDF2 salt, and the pair
`(salt, hex(derived key))` is returned. -/
def TLSS_U.hash (salt : CStr) (data : CStr) : CStr × CStr :=
  (salt, hexEncode (deriveKey (strBytes data) (strBytes salt)))

/-- `TLSS_U::checkHash(data, salt, hashed)` from `crypt.cpp`: re-derive with
the given salt and compare the hex encoding to `hashed`. -/
def TLSS_U.checkHash (data salt hashed : CStr) : Bool :=
  hexEncode (deriveKey (strBytes data) (strBytes salt)) == hashed

/-! The discovery and presence subsystem (`network.hpp`, `ndata.cpp`,
`udp.cpp`). -/

/-- `TLSS_C::PORT` from `_constants.hpp`. -/
def TLSS_C.PORT : Nat := 3000

/-- The `USER` record from `user.hpp` with its in-class initializers
(`lastHeartbeat` is a time point, modelled as an integer timestamp in
seconds with epoch default; `color` is uninitialized in the source and
modelled as 0). -/
structure USER where
  name : CStr := "?".toList
  email : CStr := "?".toList
  hashedPassword : CStr := []
  color : Int := 0
  uuid : CStr := "XXXXXXXX-XXXX-XXXX-XXXX-XXXXXXXXXXXX".toList
  token : CStr := []
  IPP : CStr := "0.0.0.0:X".toList
  lastHeartbeat : Int := 0
  deriving DecidableEq

/-- A source endpoint as seen by the node: `inet_ntoa(sin_addr)` and
`ntohs(sin_port)`. -/
structure Endpoint where
  addr : CStr
  port : Nat
  deriving DecidableEq

/-- `PONG_PREFIX` from `network.hpp` (the marker checked and sent by
`udpHandler`). -/
def PONG_MARK : CStr := "pong:".toList

/-- The wire marker of the identify reply sent inside `receivePong`. -/
def IDENT_MARK : CStr := "ʁ".toList

/-- `_users.find(token)` on the presence table (a map keyed by token,
modelled as an association list with unique keys). -/
def findUser (users : List (CStr × USER)) (t : CStr) : Option USER :=
  match users with
  | [] => none
  | p :: ps => if p.1 == t then some p.2 else findUser ps t

/-- `_users[token]->lastHeartbeat = now` on the presence table. -/
def setHeartbeat (users : List (CStr × USER)) (t : CStr) (now : Int) :
    List (CStr × USER) :=
  users.map fun p => if p.1 == t then (p.1, { p.2 with lastHeartbeat := now }) else p

/-- `NetManager::createUser` from `ndata.cpp`: sets only `name` (the quoted
string `"User N"` with `N = _users.size() + 1` at call time) and `IPP`
(source address and port joined by a colon); all other fields keep the
`USER` defaults. -/
def createUser (token : CStr) (users : List (CStr × USER)) (cliaddr : Endpoint) :
    USER :=
  { name := "\"User ".toList ++ (toString (users.length + 1)).toList ++ "\"".toList
    IPP := cliaddr.addr ++ ":".toList ++ (toString cliaddr.port).toList }

/-- `NetManager::removeInactiveUsers` from `ndata.cpp`: erase every record
with `lastHeartbeat < now - 2 seconds`, keep the rest. -/
def removeInactiveUsers (now : Int) (users : List (CStr × USER)) :
    List (CStr × USER) :=
  users.filter fun p => !decide (p.2.lastHeartbeat < now - 2)

/-- Outcome of one `recvfrom` call with the 500 ms receive timeout: a
datagram with its source, a timeout (`EWOULDBLOCK`), or another I/O error. -/
inductive RecvOutcome where
  | data (src : Endpoint) (msg : CStr)
  | timeout
  | ioError
  deriving DecidableEq

/-- The mutable state of `NetManager` that the discovery loop touches:
the presence table, the running flag, and the `cliaddr` / `receivedMessage`
fields, which persist across cycles. -/
structure NetState where
  users : List (CStr × USER)
  running : Bool
  cliaddr : Endpoint
  receivedMessage : CStr
  deriving DecidableEq

/-- The per-node constants of the loop: local IP (`TLSS_U::getLocalIP`),
bound port `_uPort`, and identity token `_token`. -/
structure NetConfig where
  ip : CStr
  uPort : Nat
  token : CStr

/-- The state of `NetManager` just after construction: empty table, running
flag set, zeroed `cliaddr`, empty `receivedMessage`. -/
def initState : NetState :=
  { users := [], running := true
    cliaddr := { addr := "0.0.0.0".toList, port := 0 }, receivedMessage := [] }

/-- `NetManager::receivePong` from `udp.cpp`, as a function of the receive
outcome: on data, store the source in `cliaddr` and the payload in
`receivedMessage`, then — unless the source address equals the local IP —
unicast `"ʁ" + _token` back; on `EWOULDBLOCK`, return at once; on any other
error, report it (`perror`) and clear `_running`, then fall through to the
same address check and send with the stale `cliaddr`. Returns the new
state, the datagrams sent, and whether an error was reported. -/
def receivePong (cfg : NetConfig) (nd : NetState) (o : RecvOutcome) :
    NetState × List (Endpoint × CStr) × Bool :=
  match o with
  | .timeout => (nd, [], false)
  | .data src msg =>
      let nd' := { nd with cliaddr := src, receivedMessage := msg }
      if src.addr == cfg.ip then (nd', [], false)
      else (nd', [(src, IDENT_MARK ++ cfg.token)], false)
  | .ioError =>
      let nd' := { nd with running := false }
      if nd.cliaddr.addr == cfg.ip then (nd', [], true)
      else (nd', [(nd.cliaddr, IDENT_MARK ++ cfg.token)], true)

/-- Lines 42–48 of `udp.cpp`: if `receivedMessage` contains `PONG_PREFIX`,
take the suffix after the first five characters as the token, create the
record if the token is unknown, and set its heartbeat to now. -/
def pongUpsert (now : Int) (users : List (CStr × USER)) (cliaddr : Endpoint)
    (msg : CStr) : List (CStr × USER) :=
  if strContains msg PONG_MARK then
    let token := msg.drop PONG_MARK.length
    let users1 := if (findUser users token).isNone
      then users ++ [(token, createUser token users cliaddr)] else users
    setHeartbeat users1 token now
  else users

/-- Lines 39–52 of `udp.cpp`, after both futures complete: if
`ntohs(cliaddr.sin_port) == _uPort` skip the rest of the cycle (`continue`);
otherwise run the upsert on `receivedMessage` and unconditionally send
`PONG_PREFIX + _token` back to `cliaddr`. -/
def handlerTail (cfg : NetConfig) (now : Int) (nd : NetState) :
    NetState × List (Endpoint × CStr) :=
  if nd.cliaddr.port == cfg.uPort then (nd, [])
  else
    ({ nd with users := pongUpsert now nd.users nd.cliaddr nd.receivedMessage },
     [(nd.cliaddr, PONG_MARK ++ cfg.token)])

/-- State after one full iteration of the `while (_running)` body of
`NetManager::udpHandler`: sweep, concurrent probe send and receive, then
the tail processing. -/
def cycleState (cfg : NetConfig) (now : Int) (o : RecvOutcome) (nd : NetState) :
    NetState :=
  (handlerTail cfg now
    (receivePong cfg { nd with users := removeInactiveUsers now nd.users } o).1).1

/-- The unicast replies sent during one iteration, in order: first the
identify sent inside `receivePong`, then the `PONG_PREFIX` reply sent at the
end of `udpHandler`'s body. -/
def cycleReplies (cfg : NetConfig) (now : Int) (o : RecvOutcome) (nd : NetState) :
    List (Endpoint × CStr) :=
  let r := receivePong cfg { nd with users := removeInactiveUsers now nd.users } o
  r.2.1 ++ (handlerTail cfg now r.1).2

/-- Observable events of one loop iteration. -/
inductive NetEv where
  | sweep
  | sendProbe
  | recvStart
  | sendDatagram (dst : Endpoint) (payload : CStr)
  deriving DecidableEq

/-- Event trace of one iteration of `udpHandler`'s loop body, in program
order: the eviction sweep runs first (line 27), then the probe-send future
is created (line 30), then the receive future (line 33), then the unicast
replies happen. -/
def cycleEvents (cfg : NetConfig) (now : Int) (o : RecvOutcome) (nd : NetState) :
    List NetEv :=
  NetEv.sweep :: NetEv.sendProbe :: NetEv.recvStart ::
    (cycleReplies cfg now o nd).map fun s => NetEv.sendDatagram s.1 s.2

/-- `while (_running)`: run the loop over a list of timestamped receive
outcomes, stopping as soon as the running flag is clear. -/
def runLoop (cfg : NetConfig) : NetState → List (Int × RecvOutcome) → NetState
  | nd, [] => nd
  | nd, (now, o) :: rest =>
      if nd.running then runLoop cfg (cycleState cfg now o nd) rest else nd

/-- The bind loop of the `NetManager` constructor (`ndata.cpp` lines 70–77):
try the current port; on failure increment and retry, with no retry bound
and no error exit. `occupied` says which ports are taken; the fuel argument
only truncates the unbounded source loop so the model is total — `none`
means the loop was still retrying after `fuel` attempts. -/
def bindSearch (occupied : Nat → Bool) : Nat → Nat → Option Nat
  | 0, _ => none
  | fuel + 1, p => if occupied p then bindSearch occupied fuel (p + 1) else some p

/-- The diagnostic line printed after binding: `"Hosting on: " << _ip << ":"
<< _uPort`. -/
def hostingBanner (ip : CStr) (port : Nat) : CStr :=
  "Hosting on: ".toList ++ ip ++ ":".toList ++ (toString port).toList

/-! Supporting lemmas. -/

/-- Every SHA-256 digest has 32 bytes. -/
theorem sha256_length (m : List Byte) : (sha256 m).length = 32 := by
  simp [sha256, wordBytes]

/-- Every HMAC-SHA-256 tag has 32 bytes. -/
theorem hmac_length (k m : List Byte) : (hmac k m).length = 32 :=
  sha256_length _

/-- The PBKDF2 xor accumulator keeps a 32-byte first component. -/
theorem pbkdf2_foldl_length (pw : List Byte) :
    ∀ (l : List Nat) (acc : List Byte × List Byte), acc.1.length = 32 →
      ((l.foldl (fun a _ => pbkdf2Step pw a) acc).1).length = 32 := by
  intro l
  induction l with
  | nil => intro acc h; exact h
  | cons x xs ih =>
      intro acc h
      exact ih _ (by simp [pbkdf2Step, List.length_zipWith, h, hmac_length])

/-- The derived key has 32 bytes. -/
theorem deriveKey_length (d s : List Byte) : (deriveKey d s).length = 32 := by
  simp only [deriveKey, pbkdf2Block]
  exact pbkdf2_foldl_length _ _ _ (hmac_length _ _)

/-- The sixteen hex digit characters are pairwise distinct. -/
theorem hexDigit_inj : ∀ a b : Fin 16, hexDigit a = hexDigit b → a = b := by
  decide

/-- Two-character hex encoding separates bytes. -/
theorem byteHex_inj : ∀ a b : Byte, byteHex a = byteHex b → a = b := by
  intro a b h
  simp only [byteHex, List.cons.injEq, and_true] at h
  obtain ⟨h1, h2⟩ := h
  have v1 : a.val / 16 = b.val / 16 :=
    congrArg Fin.val (hexDigit_inj _ _ h1)
  have v2 : a.val % 16 = b.val % 16 :=
    congrArg Fin.val (hexDigit_inj _ _ h2)
  have := a.isLt
  have := b.isLt
  apply Fin.ext
  omega

/-- Hex encoding separates byte sequences. -/
theorem hexEncode_inj : ∀ as bs : List Byte, hexEncode as = hexEncode bs → as = bs := by
  intro as
  induction as with
  | nil =>
      intro bs h
      cases bs with
      | nil => rfl
      | cons b bs => simp [hexEncode, byteHex] at h
  | cons a as ih =>
      intro bs h
      cases bs with
      | nil => simp [hexEncode, byteHex] at h
      | cons b bs =>
          simp only [hexEncode, List.flatMap_cons, byteHex, List.cons_append,
            List.nil_append, List.cons.injEq] at h
          obtain ⟨h1, h2, h3⟩ := h
          have hb : a = b := byteHex_inj a b (by simp [byteHex, h1, h2])
          have ht : as = bs := ih bs (by simpa [hexEncode] using h3)
          rw [hb, ht]

/-- Dropping the length of the left part of an append yields the right part. -/
theorem dropAppend {α : Type} (xs ys : List α) : (xs ++ ys).drop xs.length = ys := by
  induction xs with
  | nil => rfl
  | cons x xt ih => simpa using ih

/-- A list is a prefix of itself in the executable sense. -/
theorem isPrefixOf_self (t : CStr) : t.isPrefixOf t = true := by
  induction t with
  | nil => rfl
  | cons c cs ih => simp [List.isPrefixOf, ih]

/-- A list is a prefix of any extension of itself in the executable sense. -/
theorem isPrefixOf_append_self (p t : CStr) : p.isPrefixOf (p ++ t) = true := by
  induction p with
  | nil => cases t <;> rfl
  | cons c cs ih => simp [List.isPrefixOf, ih]

/-- `find` locates a leading occurrence of the needle. -/
theorem strContains_self_append (p t : CStr) : strContains (p ++ t) p = true := by
  simp only [strContains, List.any_eq_true]
  exact ⟨0, by simp, by simpa using isPrefixOf_append_self p t⟩

/-- `find` locates a trailing occurrence of the needle. -/
theorem strContains_append_self (xs t : CStr) : strContains (xs ++ t) t = true := by
  simp only [strContains, List.any_eq_true]
  refine ⟨xs.length, by simp [List.mem_range]; omega, ?_⟩
  rw [dropAppend]
  exact isPrefixOf_self t

/-- Appending a record with a previously unknown token makes it findable. -/
theorem findUser_append_fresh (t : CStr) (u : USER) :
    ∀ users, findUser users t = none → findUser (users ++ [(t, u)]) t = some u := by
  intro users
  induction users with
  | nil => intro _; simp [findUser]
  | cons p ps ih =>
      intro h
      cases hb : (p.1 == t) with
      | false =>
          have h' : findUser ps t = none := by simpa [findUser, hb] using h
          simpa [findUser, hb] using ih h'
      | true => simp [findUser, hb] at h

/-- Setting the heartbeat of a token rewrites exactly that token's record. -/
theorem setHeartbeat_findUser (t : CStr) (now : Int) :
    ∀ users, findUser (setHeartbeat users t now) t =
      (findUser users t).map fun u => { u with lastHeartbeat := now } := by
  intro users
  induction users with
  | nil => rfl
  | cons p ps ih =>
      cases hb : (p.1 == t) with
      | false => simpa [setHeartbeat, findUser, hb] using ih
      | true => simp [setHeartbeat, findUser, hb]

/-- The upsert of `udpHandler` on a fresh token creates the record and stamps
its heartbeat. -/
theorem pongUpsert_fresh (now : Int) (users : List (CStr × USER))
    (cliaddr : Endpoint) (t : CStr) (h : findUser users t = none) :
    findUser (pongUpsert now users cliaddr (PONG_MARK ++ t)) t =
      some { createUser t users cliaddr with lastHeartbeat := now } := by
  unfold pongUpsert
  rw [strContains_self_append, if_pos rfl]
  simp only [dropAppend, h, Option.isNone_none, if_true]
  rw [setHeartbeat_findUser, findUser_append_fresh t _ users h]
  rfl

/-- The upsert of `udpHandler` on a known token only stamps the heartbeat;
every other field, the endpoint included, keeps its stored value. -/
theorem pongUpsert_existing (now : Int) (users : List (CStr × USER))
    (cliaddr : Endpoint) (t : CStr) (u : USER) (h : findUser users t = some u) :
    findUser (pongUpsert now users cliaddr (PONG_MARK ++ t)) t =
      some { u with lastHeartbeat := now } := by
  unfold pongUpsert
  rw [strContains_self_append, if_pos rfl]
  simp only [dropAppend, h, Option.isNone_some, Bool.false_eq_true, if_false]
  rw [setHeartbeat_findUser, h]
  rfl

/-! Claims. -/

/-- C1 (amended): in `udpHandler` a received datagram is skipped exactly when
its source port equals the locally bound port — the tail of the cycle
(upsert and reply) runs if and only if `ntohs(cliaddr.sin_port) != _uPort`,
independently of the source address; the source-address comparison lives
only inside `receivePong`, where it suppresses the identify reply. -/
theorem C1_port_filter (cfg : NetConfig) (now : Int) (nd : NetState) :
    ((handlerTail cfg now nd).2 = [] ↔ nd.cliaddr.port = cfg.uPort) ∧
    (nd.cliaddr.port = cfg.uPort → handlerTail cfg now nd = (nd, [])) := by
  refine ⟨⟨?_, ?_⟩, ?_⟩
  · intro h
    by_contra hne
    simp [handlerTail, hne] at h
  · intro h
    simp [handlerTail, h]
  · intro h
    simp [handlerTail, h]

/-- C1 witness: a concrete datagram whose source port equals the bound port
is skipped whole by the handler tail. -/
theorem C1_witness :
    handlerTail ⟨"10.0.0.1".toList, 3000, "T".toList⟩ 0
      ⟨[], true, ⟨"10.0.0.2".toList, 3000⟩, "pong:abc".toList⟩ =
    (⟨[], true, ⟨"10.0.0.2".toList, 3000⟩, "pong:abc".toList⟩, []) :=
  (C1_port_filter _ 0 _).2 rfl

/-- C1 counterexample: a datagram from a different address (`10.0.0.2`,
local is `10.0.0.1`) whose source port happens to equal the bound port 3000
is NOT processed — no record is created from its identify payload and no
reply is produced by the handler tail — contradicting the claim that
discarding never depends on the source port. -/
theorem C1_counterexample :
    (cycleState ⟨"10.0.0.1".toList, 3000, "T".toList⟩ 0
      (.data ⟨"10.0.0.2".toList, 3000⟩ "pong:abc".toList) initState).users = [] ∧
    cycleReplies ⟨"10.0.0.1".toList, 3000, "T".toList⟩ 0
      (.data ⟨"10.0.0.2".toList, 3000⟩ "pong:abc".toList) initState =
      [(⟨"10.0.0.2".toList, 3000⟩, "ʁT".toList)] := by
  decide

/-- C2 (amended): insertion of a self record is prevented only by the port
comparison — whenever the received datagram's source port equals the bound
port, the cycle leaves the presence table exactly as the sweep left it, so
genuine self-origin datagrams (which are sent from the node's own bound
socket and therefore carry the bound port) never produce a record; the
address comparison plays no part in this. -/
theorem C2_no_insert_on_port_match (cfg : NetConfig) (now : Int) (nd : NetState)
    (src : Endpoint) (msg : CStr) (h : src.port = cfg.uPort) :
    (cycleState cfg now (.data src msg) nd).users =
      removeInactiveUsers now nd.users := by
  by_cases ha : src.addr == cfg.ip <;>
    simp [cycleState, receivePong, handlerTail, ha, h]

/-- C2 witness: a concrete datagram with source port equal to the bound port
leaves the (empty) table empty. -/
theorem C2_witness :
    (cycleState ⟨"10.0.0.1".toList, 3000, "T".toList⟩ 0
      (.data ⟨"9.9.9.9".toList, 3000⟩ "pong:xyz".toList) initState).users =
      removeInactiveUsers 0 initState.users :=
  C2_no_insert_on_port_match _ 0 _ _ _ rfl

/-- C2 counterexample: a datagram whose source address equals the node's own
address `10.0.0.1` but whose source port 3001 differs from the bound port
3000, carrying an identify with the node's own token `T`, DOES insert a
record — keyed by the node's own token and pointing at its own address —
contradicting the claim that a datagram from the node's own address never
produces a `PeerRecord`. -/
theorem C2_counterexample :
    (cycleState ⟨"10.0.0.1".toList, 3000, "T".toList⟩ 5
      (.data ⟨"10.0.0.1".toList, 3001⟩ "pong:T".toList) initState).users =
      [("T".toList,
        { name := "\"User 1\"".toList, IPP := "10.0.0.1:3001".toList,
          lastHeartbeat := 5 })] := by
  decide

/-- C3 (amended): on a received datagram, the identify reply `"ʁ" + token`
is unicast to the source whenever the source address differs from the local
IP, regardless of the message's content, and a second reply
`"pong:" + token` is additionally sent whenever the source port differs
from the bound port; on a timeout, no identify is sent but the
`"pong:" + token` reply is still sent to the PREVIOUS datagram's source
whenever the stale port differs from the bound port. -/
theorem C3_reply_conditions (cfg : NetConfig) (now : Int) (nd : NetState)
    (src : Endpoint) (msg : CStr) :
    cycleReplies cfg now (.data src msg) nd =
      (if src.addr == cfg.ip then [] else [(src, IDENT_MARK ++ cfg.token)]) ++
      (if src.port == cfg.uPort then [] else [(src, PONG_MARK ++ cfg.token)]) ∧
    cycleReplies cfg now .timeout nd =
      (if nd.cliaddr.port == cfg.uPort then []
       else [(nd.cliaddr, PONG_MARK ++ cfg.token)]) := by
  constructor
  · by_cases ha : src.addr == cfg.ip <;> by_cases hp : src.port == cfg.uPort <;>
      simp [cycleReplies, receivePong, handlerTail, ha, hp]
  · by_cases hp : nd.cliaddr.port == cfg.uPort <;>
      simp [cycleReplies, receivePong, handlerTail, hp]

/-- C3 counterexample: a message `"hello"` that is neither a `Probe` nor an
`Identify`, from another node, triggers two replies (the `"ʁ"` identify from
`receivePong` and the `"pong:"` reply from the handler tail), contradicting
the claim that a reply is sent only in response to a `Probe`. -/
theorem C3_counterexample :
    cycleReplies ⟨"10.0.0.1".toList, 3000, "T".toList⟩ 0
      (.data ⟨"10.0.0.2".toList, 4000⟩ "hello".toList) initState =
      [(⟨"10.0.0.2".toList, 4000⟩, "ʁT".toList),
       (⟨"10.0.0.2".toList, 4000⟩, "pong:T".toList)] := by
  decide

/-- C4 (amended): an identify for a token already present updates ONLY the
record's `lastHeartbeat` to the current time — the stored endpoint (and
every other field) keeps its previous value; an identify for an unknown
token creates a record with the current source endpoint and timestamp. -/
theorem C4_upsert_behavior (now : Int) (users : List (CStr × USER))
    (cliaddr : Endpoint) (t : CStr) :
    (∀ u, findUser users t = some u →
      findUser (pongUpsert now users cliaddr (PONG_MARK ++ t)) t =
        some { u with lastHeartbeat := now }) ∧
    (findUser users t = none →
      findUser (pongUpsert now users cliaddr (PONG_MARK ++ t)) t =
        some { createUser t users cliaddr with lastHeartbeat := now }) :=
  ⟨fun u h => pongUpsert_existing now users cliaddr t u h,
   fun h => pongUpsert_fresh now users cliaddr t h⟩

/-- C4 witness: both upsert branches evaluated at concrete inputs. -/
theorem C4_witness :
    findUser (pongUpsert 7 [("t".toList, { IPP := "1.2.3.4:5".toList })]
        ⟨"9.9.9.9".toList, 8⟩ (PONG_MARK ++ "t".toList)) "t".toList =
      some { IPP := "1.2.3.4:5".toList, lastHeartbeat := 7 } ∧
    findUser (pongUpsert 7 ([] : List (CStr × USER)) ⟨"9.9.9.9".toList, 8⟩
        (PONG_MARK ++ "u".toList)) "u".toList =
      some { createUser "u".toList [] ⟨"9.9.9.9".toList, 8⟩ with
             lastHeartbeat := 7 } :=
  ⟨(C4_upsert_behavior 7 _ _ _).1 { IPP := "1.2.3.4:5".toList } (by decide),
   (C4_upsert_behavior 7 _ _ _).2 (by decide)⟩

/-- C4 counterexample: a record stored with endpoint `1.2.3.4:5` receives an
identify from `9.9.9.9:7`; after the upsert the stored endpoint is still
`1.2.3.4:5`, not the current source endpoint `9.9.9.9:7`, contradicting the
claim that the upsert updates both the endpoint and the heartbeat. -/
theorem C4_counterexample :
    findUser (pongUpsert 1 [("t".toList, { IPP := "1.2.3.4:5".toList })]
        ⟨"9.9.9.9".toList, 7⟩ "pong:t".toList) "t".toList =
      some { IPP := "1.2.3.4:5".toList, lastHeartbeat := 1 } ∧
    "1.2.3.4:5".toList ≠
      ("9.9.9.9".toList ++ ":".toList ++ (toString 7).toList : CStr) := by
  decide

/-- C5: the sweep retains a record exactly when `now - lastHeartbeat ≤ 2`
seconds and removes it exactly when `now - lastHeartbeat > 2` seconds, the
presence timeout being the hard-coded 2 seconds of
`NetManager::removeInactiveUsers`. -/
theorem C5_sweep_boundary (now : Int) (users : List (CStr × USER))
    (p : CStr × USER) :
    p ∈ removeInactiveUsers now users ↔
      p ∈ users ∧ now - p.2.lastHeartbeat ≤ 2 := by
  simp only [removeInactiveUsers, List.mem_filter, Bool.not_eq_true',
    decide_eq_false_iff_not]
  constructor <;> rintro ⟨h1, h2⟩ <;> exact ⟨h1, by omega⟩

/-- C6 (amended): binding probes ports sequentially from the start port: if
ports `p .. p+k-1` are occupied and `p+k` is free, the loop binds to `p+k`,
the first free port at or after `p`, and the bound port appears in the
`"Hosting on:"` diagnostic line; however the loop has no retry budget and no
error exit — when every port is occupied it retries forever (`none` for
every amount of fuel), never returning a `BindError`. -/
theorem C6_bind_search :
    (∀ (occupied : Nat → Bool) (p k fuel : Nat),
      (∀ i, i < k → occupied (p + i) = true) → occupied (p + k) = false →
      k < fuel → bindSearch occupied fuel p = some (p + k)) ∧
    (∀ (occupied : Nat → Bool) (fuel p : Nat),
      (∀ i, occupied i = true) → bindSearch occupied fuel p = none) ∧
    (∀ (ip : CStr) (port : Nat),
      strContains (hostingBanner ip port) (toString port).toList = true) := by
  refine ⟨?_, ?_, ?_⟩
  · intro occupied p k
    induction k generalizing p with
    | zero =>
        intro fuel h1 h2 h3
        cases fuel with
        | zero => exact absurd h3 (by omega)
        | succ f =>
            have h2' : occupied p = false := by simpa using h2
            simp [bindSearch, h2']
    | succ k ih =>
        intro fuel h1 h2 h3
        cases fuel with
        | zero => exact absurd h3 (by omega)
        | succ f =>
            have hp : occupied p = true := by simpa using h1 0 (Nat.succ_pos k)
            have step : bindSearch occupied (f + 1) p =
                bindSearch occupied f (p + 1) := by
              simp [bindSearch, hp]
            have h1' : ∀ i, i < k → occupied (p + 1 + i) = true := by
              intro i hi
              have := h1 (i + 1) (by omega)
              rwa [show p + (i + 1) = p + 1 + i by omega] at this
            have h2' : occupied (p + 1 + k) = false := by
              rwa [show p + (k + 1) = p + 1 + k by omega] at h2
            rw [step, ih (p + 1) f h1' h2' (by omega)]
            congr 1
            omega
  · intro occupied fuel
    induction fuel with
    | zero => intro p _; rfl
    | succ f ih =>
        intro p h
        have step : bindSearch occupied (f + 1) p =
            bindSearch occupied f (p + 1) := by
          simp [bindSearch, h p]
        rw [step]
        exact ih (p + 1) h
  · intro ip port
    have hb : hostingBanner ip port =
        ("Hosting on: ".toList ++ ip ++ ":".toList) ++ (toString port).toList := by
      simp [hostingBanner, List.append_assoc]
    rw [hb]
    exact strContains_append_self _ _

/-- C6 witness: with ports 3000 and 3001 occupied the search started at
`TLSS_C::PORT` binds to 3002; with every port occupied it is still
retrying after any amount of fuel; the banner for the bound port contains
that port. -/
theorem C6_witness :
    bindSearch (fun q => decide (q < 3002)) 100 TLSS_C.PORT = some 3002 ∧
    bindSearch (fun _ => true) 5 TLSS_C.PORT = none ∧
    strContains (hostingBanner "10.0.0.1".toList 3002) (toString 3002).toList =
      true := by
  refine ⟨?_, C6_bind_search.2.1 (fun _ => true) 5 TLSS_C.PORT (fun _ => rfl),
    C6_bind_search.2.2 "10.0.0.1".toList 3002⟩
  have := C6_bind_search.1 (fun q => decide (q < 3002)) 3000 2 100
    (by intro i hi; simp only [decide_eq_true_eq]; omega) (by decide) (by omega)
  simpa [TLSS_C.PORT] using this

/-- C6 counterexample: after 101 attempts — past any bounded retry budget of
100 — the bind loop over fully occupied ports is still retrying (`none`); it
has not returned, and its result type has no error outcome at all, so the
claimed `BindError` on budget exhaustion never happens. -/
theorem C6_counterexample :
    bindSearch (fun _ => true) 101 TLSS_C.PORT = none := by
  decide

/-- C8: a receive timeout with no data is a normal outcome: `receivePong`
returns with the state unchanged — in particular the running flag — sends
nothing and reports nothing; any other receive I/O failure is reported and
clears the running flag; and a cleared running flag stops the loop: no
further outcome is processed. -/
theorem C8_error_handling :
    (∀ (cfg : NetConfig) (nd : NetState),
      receivePong cfg nd .timeout = (nd, [], false)) ∧
    (∀ (cfg : NetConfig) (nd : NetState),
      ((receivePong cfg nd .ioError).1).running = false ∧
      (receivePong cfg nd .ioError).2.2 = true) ∧
    (∀ (cfg : NetConfig) (nd : NetState) (l : List (Int × RecvOutcome)),
      nd.running = false → runLoop cfg nd l = nd) := by
  refine ⟨fun cfg nd => rfl, fun cfg nd => ?_, fun cfg nd l h => ?_⟩
  · by_cases ha : nd.cliaddr.addr == cfg.ip <;> simp [receivePong, ha]
  · cases l with
    | nil => rfl
    | cons x rest =>
        obtain ⟨now, o⟩ := x
        simp [runLoop, h]

/-- C8 witness: a concrete timeout leaves a concrete state untouched, and a
concrete stopped node processes no further outcome. -/
theorem C8_witness :
    receivePong ⟨"10.0.0.1".toList, 3000, "T".toList⟩ initState .timeout =
      (initState, [], false) ∧
    runLoop ⟨"10.0.0.1".toList, 3000, "T".toList⟩
      { initState with running := false } [(0, .timeout)] =
      { initState with running := false } :=
  ⟨C8_error_handling.1 _ _, C8_error_handling.2.2 _ _ _ rfl⟩

/-- C9: in every loop iteration the eviction sweep is the first event — it
precedes the initiation of both the probe send and the receive — and it
occurs exactly once in the cycle's event trace. -/
theorem C9_sweep_first (cfg : NetConfig) (now : Int) (o : RecvOutcome)
    (nd : NetState) :
    (cycleEvents cfg now o nd).head? = some NetEv.sweep ∧
    NetEv.sendProbe ∈ (cycleEvents cfg now o nd).tail ∧
    NetEv.recvStart ∈ (cycleEvents cfg now o nd).tail ∧
    (cycleEvents cfg now o nd).count NetEv.sweep = 1 := by
  refine ⟨rfl, by simp [cycleEvents], by simp [cycleEvents], ?_⟩
  have hz : ((cycleReplies cfg now o nd).map
      fun s => NetEv.sendDatagram s.1 s.2).count NetEv.sweep = 0 := by
    rw [List.count_eq_zero]
    intro hmem
    simp [List.mem_map] at hmem
  simp [cycleEvents, List.count_cons, hz]

/-- Lists of equal length with equal entries at every position are equal. -/
theorem list_eq_of_getD {α : Type} (d : α) :
    ∀ (as bs : List α), as.length = bs.length →
      (∀ i, i < as.length → as.getD i d = bs.getD i d) → as = bs := by
  intro as
  induction as with
  | nil =>
      intro bs h _
      cases bs with
      | nil => rfl
      | cons b bt => simp at h
  | cons a at' ih =>
      intro bs h hg
      cases bs with
      | nil => simp at h
      | cons b bt =>
          have h0 : a = b := hg 0 (by simp)
          have ht : at' = bt := by
            apply ih bt (by simpa using h)
            intro i hi
            exact hg (i + 1) (by simpa using hi)
          rw [h0, ht]

/-- C7 (amended): verification succeeds on the roundtrip — for every salt the
RNG may return, `checkHash(s, salt, hash(s).second)` is `true`; and for any
candidate secret `t`, verification against `s`'s stored hash succeeds
exactly when the two PBKDF2-derived keys coincide, so a different secret is
rejected unless it collides with `s` under the derivation (such collisions
exist by counting but are computationally infeasible to exhibit). -/
theorem C7_verify (salt s t : CStr) :
    TLSS_U.checkHash s salt (TLSS_U.hash salt s).2 = true ∧
    (TLSS_U.checkHash t salt (TLSS_U.hash salt s).2 = true ↔
      deriveKey (strBytes t) (strBytes salt) =
        deriveKey (strBytes s) (strBytes salt)) := by
  constructor
  · simp [TLSS_U.checkHash, TLSS_U.hash]
  · simp only [TLSS_U.checkHash, TLSS_U.hash, beq_iff_eq]
    constructor
    · exact fun h => hexEncode_inj _ _ h
    · exact fun h => by rw [h]

/-- C7 counterexample: the claim that every secret different from `s`
verifies to `false` under `s`'s salt and hash is false — the derivation maps
the infinitely many byte strings into the finitely many 32-byte keys, so two
different secrets share a derived key, and the second verifies successfully
against the first one's stored hash. -/
theorem C7_counterexample :
    ¬ (∀ (s t salt : CStr), s ≠ t →
        TLSS_U.checkHash t salt (TLSS_U.hash salt s).2 = false) := by
  intro hcl
  obtain ⟨n, m, hnm, heq⟩ := Finite.exists_ne_map_eq_of_infinite
    (fun n : Nat => fun i : Fin 32 =>
      (deriveKey (strBytes (List.replicate n 'a')) (strBytes ([] : CStr))).getD
        i.val (mkByte 0))
  have hlen1 := deriveKey_length (strBytes (List.replicate n 'a'))
    (strBytes ([] : CStr))
  have hlen2 := deriveKey_length (strBytes (List.replicate m 'a'))
    (strBytes ([] : CStr))
  have hlist : deriveKey (strBytes (List.replicate n 'a')) (strBytes ([] : CStr)) =
      deriveKey (strBytes (List.replicate m 'a')) (strBytes ([] : CStr)) := by
    apply list_eq_of_getD (mkByte 0) _ _ (by rw [hlen1, hlen2])
    intro i hi
    have hi32 : i < 32 := by rwa [hlen1] at hi
    exact congrFun heq ⟨i, hi32⟩
  have hneq : (List.replicate n 'a' : CStr) ≠ List.replicate m 'a' := fun h =>
    hnm (by simpa using congrArg List.length h)
  have hres := hcl (List.replicate n 'a') (List.replicate m 'a') [] hneq
  simp only [TLSS_U.checkHash, TLSS_U.hash] at hres
  rw [hlist] at hres
  simp at hres

/-- C10: on a newly seen token the created record has `name` equal to the
quoted literal `"User N"` with `N` the current table size plus one, `IPP`
equal to the source address and port joined by a colon, `email` and `token`
(and every remaining field) left at the `USER` defaults — the token is only
the map key and is never stored in the record — and the heartbeat stamped
with the current time. -/
theorem C10_new_record (users : List (CStr × USER)) (now : Int)
    (cliaddr : Endpoint) (t : CStr) (h : findUser users t = none) :
    findUser (pongUpsert now users cliaddr (PONG_MARK ++ t)) t =
      some { name := "\"User ".toList ++ (toString (users.length + 1)).toList ++
               "\"".toList,
             email := "?".toList,
             hashedPassword := [],
             color := 0,
             uuid := "XXXXXXXX-XXXX-XXXX-XXXX-XXXXXXXXXXXX".toList,
             token := [],
             IPP := cliaddr.addr ++ ":".toList ++ (toString cliaddr.port).toList,
             lastHeartbeat := now } :=
  pongUpsert_fresh now users cliaddr t h

/-- C10 witness: a first identify into an empty table produces the record
`"User 1"` at the source endpoint. -/
theorem C10_witness :
    findUser (pongUpsert 3 ([] : List (CStr × USER)) ⟨"1.2.3.4".toList, 9⟩
        (PONG_MARK ++ "ab".toList)) "ab".toList =
      some { name := "\"User 1\"".toList, email := "?".toList,
             IPP := "1.2.3.4:9".toList, lastHeartbeat := 3 } :=
  C10_new_record [] 3 ⟨"1.2.3.4".toList, 9⟩ "ab".toList rfl
